import Mathlib

/-!
Shallow embedding of the multi-server tool-orchestration core of the
repository (the chat API route, `src/app/api/chat/route.ts`), together
with proofs about it.

Modelling conventions:
* JavaScript values produced by `JSON.parse` are represented by the
  inductive `Json`; a string that fails to parse is represented by the
  absence of a `Json` value (`Option`/`Except`), since the parser itself
  is a library external to the repository.
* The asynchronous environment (which connection attempts succeed, the
  order in which concurrently-issued attempts settle, what the completion
  model answers, what a tool invocation returns) is passed in as explicit
  oracle parameters; the functions below are the deterministic residue of
  the route's code once those choices are fixed.
* JavaScript `Map` insertion/update semantics are modelled by `mapSet`
  on association lists: update-in-place when the key is present,
  append otherwise.
-/

namespace MCPChat

/-- A JavaScript value as produced by `JSON.parse`. -/
inductive Json where
  | jnull : Json
  | jbool (b : Bool) : Json
  | jnum (n : Int) : Json
  | jstr (s : String) : Json
  | jarr (xs : List Json) : Json
  | jobj (fields : List (String × Json)) : Json

mutual
/-- JavaScript `String(v)` coercion, as applied to parsed-JSON values
(route.ts line 66 coerces non-string env values with `String(...)`). -/
def jsToString : Json → String
  | .jnull => "null"
  | .jbool true => "true"
  | .jbool false => "false"
  | .jnum n => toString n
  | .jstr s => s
  | .jarr xs => jsArrString xs
  | .jobj _ => "[object Object]"

/-- `Array.prototype.toString`: elements joined with commas, `null`
elements rendered as the empty string. -/
def jsArrString : List Json → String
  | [] => ""
  | [x] => jsArrElemString x
  | x :: y :: xs => jsArrElemString x ++ "," ++ jsArrString (y :: xs)

/-- One array element under `String(...)`: `null` becomes empty. -/
def jsArrElemString : Json → String
  | .jnull => ""
  | v => jsToString v
end

/-- JavaScript `Map.prototype.set` / object-property assignment on an
association list: replace the value at an existing key in place,
otherwise append the new entry. -/
def mapSet {A : Type} : List (String × A) → String → A → List (String × A)
  | [], k, v => [(k, v)]
  | p :: rest, k, v => if p.1 = k then (k, v) :: rest else p :: mapSet rest k v

/-- First-match lookup in an association list (JS `Map.prototype.get` /
object property read, for maps built by `mapSet`). -/
def envLookup {A : Type} (m : List (String × A)) (k : String) : Option A :=
  (m.find? (fun p => p.1 == k)).map (·.2)

/-- A server descriptor as received by the route (`ServerConfig`,
route.ts lines 22-27).  The `env` field of the source is a JSON string;
here it is represented by the outcome of `JSON.parse` on it:
`none` when the string is malformed, `some v` when it parses to `v`. -/
structure ServerConfig where
  id : String
  name : String
  path : String
  env : Option Json

/-- Parse-and-validate of the descriptor environment
(route.ts lines 61-67): the parsed value must be a JSON object
(`typeof parsedEnv` must be the object type, not null, not an array),
and every non-string value is coerced with JavaScript `String(...)`. -/
def checkEnv : Option Json → Except String (List (String × String))
  | none => .error "Invalid JSON Env: parse failure"
  | some (.jobj fields) => .ok (fields.map (fun p => (p.1, jsToString p.2)))
  | some _ => .error "Invalid JSON Env: Env must be JSON object"

/-- The ambient process environment: a key may map to `none`
(a JS `undefined` entry). -/
abbrev AmbientEnv : Type := List (String × Option String)

/-- Sanitized copy of the ambient environment (route.ts lines 82-85):
`Object.entries(process.env).reduce(...)` keeping only defined values.
The reduce builds an object, hence `mapSet` semantics. -/
def cleanProcessEnv (ambient : AmbientEnv) : List (String × String) :=
  ambient.foldl
    (fun acc p =>
      match p.2 with
      | some v => mapSet acc p.1 v
      | none => acc)
    []

/-- The environment handed to the spawned transport
(route.ts line 88): the JS spread `\x7b ...cleanProcessEnv, ...parsedEnv \x7d`,
i.e. the parsed descriptor entries assigned, in order, over the
sanitized ambient copy. -/
def spawnedEnv (ambient : AmbientEnv) (parsedEnv : List (String × String)) :
    List (String × String) :=
  parsedEnv.foldl (fun acc p => mapSet acc p.1 p.2) (cleanProcessEnv ambient)

/-- A tool as reported by a server's `listTools` (route.ts lines 29-33). -/
structure ToolInfo where
  name : String
  description : Option String
  inputSchema : Json

/-- A tool in OpenAI function-calling shape (route.ts lines 97-100). -/
structure OpenAITool where
  name : String
  description : Option String
  parameters : Json

/-- Translation of one discovered tool into the catalog entry
(route.ts lines 97-100). -/
def toOpenAITool (t : ToolInfo) : OpenAITool :=
  ⟨t.name, t.description, t.inputSchema⟩

/-- One pool entry (`ActiveClientInfo`, route.ts lines 45-50).
`clientId` identifies the underlying adapter handle (the `Client`
object); in this embedding it is the index of the descriptor whose
connection attempt created the handle.  `toolNames` models the JS
`Set` of tool names; only membership is ever used. -/
structure ActiveClientInfo where
  clientId : Nat
  tools : List OpenAITool
  toolNames : List String

/-- How one connection attempt resolves, as chosen by the environment.
`preSpawnFailure` covers failures before the `Client` object exists
(script not found, not a file, unsupported extension, route.ts
lines 69-80); `connectFailure` covers failures after it exists
(spawn/handshake failure or the 30s timeout, route.ts lines 92-95);
`success` carries the `listTools` result. -/
inductive ConnectOutcome where
  | preSpawnFailure (msg : String)
  | connectFailure (msg : String)
  | success (tools : List ToolInfo)

/-- The result of the attempt for descriptor number `i`
(the body of the `initPromises` closure, route.ts lines 56-112):
`none` when the attempt fails (bad env JSON, filesystem checks, spawn,
handshake or timeout) — the descriptor is then excluded from the pool —
and `some info` on success. -/
def attemptResult (i : Nat) (cfg : ServerConfig) (oc : ConnectOutcome) :
    Option ActiveClientInfo :=
  match checkEnv cfg.env with
  | .error _ => none
  | .ok _ =>
    match oc with
    | .preSpawnFailure _ => none
    | .connectFailure _ => none
    | .success tools =>
      some ⟨i, tools.map toOpenAITool, tools.map (·.name)⟩

/-- The pool mapping: an association list in JS `Map` iteration order. -/
abbrev Pool : Type := List (String × ActiveClientInfo)

/-- The contribution of descriptor index `i` to the pool: the key/value
pair passed to `activeClients.set` (route.ts line 104) when the attempt
succeeds, `none` otherwise. -/
def succeedsAt (configs : List ServerConfig) (outcomes : List ConnectOutcome)
    (i : Nat) : Option (String × ActiveClientInfo) :=
  match configs[i]?, outcomes[i]? with
  | some cfg, some oc => (attemptResult i cfg oc).map (fun info => (cfg.name, info))
  | _, _ => none

/-- `initializeAllMcpClients` (route.ts lines 52-117).  The attempts are
issued concurrently and each successful attempt executes
`activeClients.set` when it settles, so the `Map` receives its entries
in settle order; `settleOrder` is the environment's choice of that
order (a permutation of the descriptor indices). -/
def initializeAll (configs : List ServerConfig) (outcomes : List ConnectOutcome)
    (settleOrder : List Nat) : Pool :=
  settleOrder.foldl
    (fun pool i =>
      match succeedsAt configs outcomes i with
      | some kv => mapSet pool kv.1 kv.2
      | none => pool)
    []

/-- Client handles closed during initialization (route.ts line 110):
in the per-descriptor catch block, a partially-constructed `Client` is
closed; the `Client` exists exactly when the env JSON was accepted and
the failure happened at/after connect (`connectFailure`). -/
def closedDuringInit (configs : List ServerConfig)
    (outcomes : List ConnectOutcome) : List Nat :=
  (List.range configs.length).filter
    (fun i =>
      match configs[i]?, outcomes[i]? with
      | some cfg, some (.connectFailure _) => (checkEnv cfg.env).isOk
      | _, _ => false)

/-- The client handles reachable from the pool. -/
def poolIds (pool : Pool) : List Nat :=
  pool.map (fun p => p.2.clientId)

/-- Client handles that were placed into the pool at some point
(each successful attempt in settle order executes one `set`). -/
def enteredPool (configs : List ServerConfig) (outcomes : List ConnectOutcome)
    (settleOrder : List Nat) : List Nat :=
  settleOrder.filterMap
    (fun i => (succeedsAt configs outcomes i).map (fun kv => kv.2.clientId))

/-- Every handle closed over the whole request: partial handles closed in
the init catch block plus the pool-resident handles closed by the
`finally` teardown (route.ts lines 266-277), which iterates
`activeClients.values()`. -/
def closedAll (configs : List ServerConfig) (outcomes : List ConnectOutcome)
    (settleOrder : List Nat) : List Nat :=
  closedDuringInit configs outcomes ++
    poolIds (initializeAll configs outcomes settleOrder)

/-- The aggregated tool catalog (route.ts lines 155-156):
`activeClients.forEach(info => allAvailableTools.push(...info.tools))`,
i.e. concatenation in pool iteration order. -/
def buildCatalog (pool : Pool) : List OpenAITool :=
  pool.foldl (fun acc p => acc ++ p.2.tools) []

/-- Tool-name routing (route.ts lines 204-213): iterate
`activeClients.entries()` and break at the first connection whose
`toolNames` set contains the requested name. -/
def resolve (pool : Pool) (toolName : String) :
    Option (String × ActiveClientInfo) :=
  pool.find? (fun p => p.2.toolNames.contains toolName)

/-- One model-issued tool call (route.ts line 190 onward).
`argumentsJson` is the outcome of `JSON.parse(toolCall.function.arguments)`
(route.ts line 197): `.error m` when the argument string is malformed,
with `m` the parse error message, `.ok v` otherwise. -/
structure ToolCall where
  id : String
  functionName : String
  argumentsJson : Except String Json

/-- A conversation message.  An assistant message carries the optional
`tool_calls` array of the API response; a tool message carries the
originating `tool_call_id` and its content string. -/
inductive Msg where
  | user (content : String)
  | assistant (content : String) (tool_calls : Option (List ToolCall))
  | tool (tool_call_id : String) (content : String)

/-- The `tool_call_id` of a tool-role message. -/
def Msg.callId : Msg → Option String
  | .tool i _ => some i
  | _ => none

/-- Whether a message has the assistant role. -/
def Msg.isAssistant : Msg → Bool
  | .assistant _ _ => true
  | _ => false

/-- Whether a message has the tool role. -/
def Msg.isTool : Msg → Bool
  | .tool _ _ => true
  | _ => false

/-- How one `client.callTool` settles, as chosen by the environment:
`ok` carries the content already converted to a string (route.ts
line 226 applies `JSON.stringify` when the content is not a string);
`err` carries the thrown error's message. -/
inductive InvokeOutcome where
  | ok (contentString : String)
  | err (msg : String)

/-- ASCII apostrophe, used by the source's error message
`Error: Tool 'name' not available.` (route.ts line 218). -/
def apos : String := String.singleton (Char.ofNat 39)

/-- Processing of one tool call inside the batch `map`
(route.ts lines 190-234): parse the arguments, resolve the owning
connection, invoke it; every failure becomes an error-content
tool-role message.  The second component instruments the embedding
with the adapter handle actually invoked (`none` when no adapter was
contacted), so that pool-untouched claims are statable. -/
def execOne (pool : Pool) (invoke : Nat → String → Json → InvokeOutcome)
    (tc : ToolCall) : Msg × Option Nat :=
  match tc.argumentsJson with
  | .error m =>
    (.tool tc.id ("Error: Invalid arguments - " ++ m), none)
  | .ok args =>
    match resolve pool tc.functionName with
    | none =>
      (.tool tc.id ("Error: Tool " ++ apos ++ tc.functionName ++ apos ++ " not available."), none)
    | some kv =>
      match invoke kv.2.clientId tc.functionName args with
      | .ok content => (.tool tc.id content, some kv.2.clientId)
      | .err m => (.tool tc.id ("Error executing tool: " ++ m), some kv.2.clientId)

/-- The whole batch (route.ts lines 190, 237): `toolCalls.map(...)`
awaited with `Promise.all`, which preserves request order and settles
only when every member has settled. -/
def execute (pool : Pool) (invoke : Nat → String → Json → InvokeOutcome)
    (tcs : List ToolCall) : List (Msg × Option Nat) :=
  tcs.map (execOne pool invoke)

/-- One completion response (`response.choices[0].message`). -/
structure AssistantResponse where
  content : String
  tool_calls : Option (List ToolCall)

/-- The assistant message pushed for a response (route.ts line 182). -/
def respToMsg (r : AssistantResponse) : Msg :=
  .assistant r.content r.tool_calls

/-- The argument record of one `openai.chat.completions.create` call
(route.ts lines 174-179).  `tools` and `tool_choice` are `none`
(JS `undefined`, i.e. omitted) when the catalog is empty. -/
structure CompletionCall where
  messages : List Msg
  tools : Option (List OpenAITool)
  tool_choice : Option String

/-- Builds the completion-call record exactly as route.ts lines 174-179:
the full current history, and `tools`/`tool_choice` only when
`allAvailableTools.length > 0`. -/
def mkCall (catalog : List OpenAITool) (msgs : List Msg) : CompletionCall :=
  ⟨msgs,
   if catalog.isEmpty then none else some catalog,
   if catalog.isEmpty then none else some "auto"⟩

/-- One frame of the SSE stream (route.ts lines 137-142, 261). -/
inductive Event where
  | message (m : Msg)
  | error (e : String)
  | done

/-- Iteration budget (route.ts line 123). -/
def MAX_TOOL_ITERATIONS : Nat := 5

/-- The synthetic budget warning (route.ts line 257). -/
def warningMsg : Msg :=
  .assistant "(Warning: Reached maximum tool call iterations (5).)" none

/-- What one run of the `while` loop produces: the emitted frames, the
completion calls made, the final `iterationCount` and the final
history. -/
structure LoopResult where
  events : List Event
  calls : List CompletionCall
  finalCount : Nat
  finalMsgs : List Msg

/-- The main interaction loop (route.ts lines 170-253), fueled by the
remaining iterations (`MAX_TOOL_ITERATIONS - iterationCount`).  `model`
is the completion endpoint as an oracle from the submitted history.
Per the source, the loop body: increments the count, calls the model
with the full current history, pushes and emits the response message,
and, when `tool_calls` is present (JS truthiness: any array, even
empty), executes the batch, emits and appends every result, and loops;
when absent it breaks. -/
def chatLoop (catalog : List OpenAITool) (pool : Pool)
    (invoke : Nat → String → Json → InvokeOutcome)
    (model : List Msg → AssistantResponse) :
    Nat → Nat → List Msg → LoopResult
  | 0, count, msgs => ⟨[], [], count, msgs⟩
  | fuel + 1, count, msgs =>
    let resp := model msgs
    let respMsg := respToMsg resp
    let call := mkCall catalog msgs
    match resp.tool_calls with
    | none => ⟨[.message respMsg], [call], count + 1, msgs ++ [respMsg]⟩
    | some tcs =>
      let toolMsgs := (execute pool invoke tcs).map Prod.fst
      let rest := chatLoop catalog pool invoke model fuel (count + 1)
        (msgs ++ respMsg :: toolMsgs)
      ⟨.message respMsg :: (toolMsgs.map Event.message ++ rest.events),
       call :: rest.calls, rest.finalCount, rest.finalMsgs⟩

/-- Everything the caller observes from the stream. -/
structure StreamResult where
  events : List Event
  calls : List CompletionCall

/-- The async stream-processing block of `POST` (route.ts lines 145-279)
for a well-formed body, with the external world fixed by the oracles:
initialize the pool; fail fatally (one error frame, no `done`) when the
pool is empty while servers were configured; otherwise run the loop,
append the synthetic warning when `iterationCount` reached the budget,
and emit `done`.  Model/tool oracles are total, so the only fatal path
in the embedding is the aggregate-unavailable throw (route.ts
lines 150-152). -/
def runStream (servers : List ServerConfig) (outcomes : List ConnectOutcome)
    (settleOrder : List Nat)
    (invoke : Nat → String → Json → InvokeOutcome)
    (model : List Msg → AssistantResponse)
    (initialMessages : List Msg) : StreamResult :=
  let pool := initializeAll servers outcomes settleOrder
  if pool.isEmpty && !servers.isEmpty then
    ⟨[.error "Failed to connect to any configured MCP server."], []⟩
  else
    let r := chatLoop (buildCatalog pool) pool invoke model
      MAX_TOOL_ITERATIONS 0 initialMessages
    ⟨r.events ++
       (if MAX_TOOL_ITERATIONS ≤ r.finalCount then [.message warningMsg] else []) ++
       [.done],
     r.calls⟩

/-- The request body (route.ts lines 39-42). -/
structure RequestBody where
  messages : List Msg
  servers : List ServerConfig

/-- The two shapes of `POST`'s HTTP answer: the 400 JSON response for a
missing/empty message list (route.ts lines 129-131), or the SSE
stream. -/
inductive ChatResponse where
  | badRequest
  | stream (s : StreamResult)

/-- The `POST` handler (route.ts lines 120-301) under fixed oracles. -/
def POSTHandler (body : RequestBody) (outcomes : List ConnectOutcome)
    (settleOrder : List Nat)
    (invoke : Nat → String → Json → InvokeOutcome)
    (model : List Msg → AssistantResponse) : ChatResponse :=
  if body.messages.isEmpty then .badRequest
  else .stream (runStream body.servers outcomes settleOrder invoke model body.messages)

/-! Concrete instances used to evaluate the definitions on explicit
inputs (witnesses and counterexamples). -/

/-- A minimal discovered tool with the given name. -/
def sampleTool (n : String) : ToolInfo := ⟨n, none, .jnull⟩

/-- Descriptor named `A` with an empty (valid) env object. -/
def cfgA : ServerConfig := ⟨"id0", "A", "a.js", some (.jobj [])⟩

/-- Descriptor named `B` with an empty (valid) env object. -/
def cfgB : ServerConfig := ⟨"id1", "B", "b.js", some (.jobj [])⟩

/-- First of two descriptors sharing the name `S`. -/
def cfgS0 : ServerConfig := ⟨"id0", "S", "a.js", some (.jobj [])⟩

/-- Second of two descriptors sharing the name `S`. -/
def cfgS1 : ServerConfig := ⟨"id1", "S", "b.js", some (.jobj [])⟩

/-- Descriptor whose env string is malformed JSON. -/
def cfgBadEnv : ServerConfig := ⟨"id2", "C", "c.js", none⟩

/-- A tool call whose argument string parsed successfully. -/
def sampleCall : ToolCall := ⟨"call-1", "t", .ok .jnull⟩

/-- A tool call whose argument string was the malformed `\x7bbad json`
(scenario C): `JSON.parse` rejects it with a parse-error message. -/
def badCall : ToolCall :=
  ⟨"call-2", "t", .error "Unexpected token b in JSON at position 1"⟩

/-- A tool-invocation oracle that always succeeds with content `ok`. -/
def cInvoke : Nat → String → Json → InvokeOutcome := fun _ _ _ => .ok "ok"

/-- A completion-model oracle that always requests one tool call. -/
def cModelAlways : List Msg → AssistantResponse :=
  fun _ => ⟨"calling", some [sampleCall]⟩

/-- A completion-model oracle that requests a tool call on its first
four invocations of a run and none on the fifth (the history seen by
pass `n` contains `n - 1` assistant messages). -/
def cModelStop5 : List Msg → AssistantResponse :=
  fun msgs =>
    if (msgs.filter Msg.isAssistant).length < 4 then ⟨"calling", some [sampleCall]⟩
    else ⟨"final", none⟩

/-- A completion-model oracle that always requests the malformed-argument
tool call (scenario C). -/
def cModelBadCall : List Msg → AssistantResponse :=
  fun _ => ⟨"calling", some [badCall]⟩

/-- A connection exposing tool `X` (first in the pool). -/
def wInfoA : ActiveClientInfo := ⟨0, [toOpenAITool (sampleTool "X")], ["X"]⟩

/-- A connection exposing tools `X` and `Y` (second in the pool). -/
def wInfoB : ActiveClientInfo :=
  ⟨1, [toOpenAITool (sampleTool "X"), toOpenAITool (sampleTool "Y")], ["X", "Y"]⟩

/-- A two-connection pool with a name collision on `X` and a unique
owner for `Y`. -/
def wPool : Pool := [("A", wInfoA), ("B", wInfoB)]

/-! ### Association-list lemmas -/

theorem envLookup_nil {A : Type} (k : String) : envLookup ([] : List (String × A)) k = none := rfl

theorem envLookup_cons {A : Type} (p : String × A) (m : List (String × A)) (k : String) :
    envLookup (p :: m) k = if p.1 = k then some p.2 else envLookup m k := by
  by_cases h : p.1 = k
  · have hb : (p.1 == k) = true := by simp [h]
    simp [envLookup, List.find?, hb, h]
  · have hb : (p.1 == k) = false := by simp [h]
    simp [envLookup, List.find?, hb, h]

theorem mapSet_lookup_self {A : Type} (m : List (String × A)) (k : String) (v : A) :
    envLookup (mapSet m k v) k = some v := by
  induction m with
  | nil => simp [mapSet, envLookup_cons]
  | cons p rest ih =>
    by_cases h : p.1 = k
    · simp [mapSet, h, envLookup_cons]
    · simp [mapSet, h, envLookup_cons, ih]

theorem mapSet_lookup_ne {A : Type} (m : List (String × A)) (k k' : String) (v : A)
    (h : k' ≠ k) : envLookup (mapSet m k v) k' = envLookup m k' := by
  have hnk : k ≠ k' := Ne.symm h
  induction m with
  | nil => simp [mapSet, envLookup_cons, envLookup_nil, hnk]
  | cons p rest ih =>
    by_cases hp : p.1 = k
    · subst hp
      simp [mapSet, envLookup_cons, hnk]
    · simp [mapSet, hp, envLookup_cons, ih]

theorem mapSet_append_of_not_key {A : Type} (m : List (String × A)) (k : String) (v : A)
    (h : k ∉ m.map Prod.fst) : mapSet m k v = m ++ [(k, v)] := by
  induction m with
  | nil => simp [mapSet]
  | cons p rest ih =>
    simp only [List.map_cons, List.mem_cons] at h
    push_neg at h
    have h1 : p.1 ≠ k := Ne.symm h.1
    simp [mapSet, h1, ih h.2]

theorem spread_lookup_not_mem (l : List (String × String)) (acc : List (String × String))
    (k : String) (h : k ∉ l.map Prod.fst) :
    envLookup (l.foldl (fun acc p => mapSet acc p.1 p.2) acc) k = envLookup acc k := by
  induction l generalizing acc with
  | nil => rfl
  | cons p rest ih =>
    simp only [List.map_cons, List.mem_cons] at h
    push_neg at h
    rw [List.foldl_cons, ih _ h.2, mapSet_lookup_ne _ _ _ _ h.1]

theorem spread_lookup_mem (l : List (String × String)) (acc : List (String × String))
    (k : String) (v : String) (hnd : (l.map Prod.fst).Nodup) (hmem : (k, v) ∈ l) :
    envLookup (l.foldl (fun acc p => mapSet acc p.1 p.2) acc) k = some v := by
  induction l generalizing acc with
  | nil => cases hmem
  | cons p rest ih =>
    simp only [List.map_cons, List.nodup_cons] at hnd
    rcases List.mem_cons.mp hmem with heq | hmem2
    · have hp : p = (k, v) := heq.symm
      subst hp
      have hk : k ∉ rest.map Prod.fst := hnd.1
      rw [List.foldl_cons, spread_lookup_not_mem rest _ k hk, mapSet_lookup_self]
    · rw [List.foldl_cons]
      exact ih _ hnd.2 hmem2

theorem cleanFold_lookup_not_mem (ambient : AmbientEnv) (acc : List (String × String))
    (k : String) (h : k ∉ ambient.map Prod.fst) :
    envLookup
      (ambient.foldl
        (fun acc p => match p.2 with | some v => mapSet acc p.1 v | none => acc) acc) k
      = envLookup acc k := by
  induction ambient generalizing acc with
  | nil => rfl
  | cons p rest ih =>
    simp only [List.map_cons, List.mem_cons] at h
    push_neg at h
    rw [List.foldl_cons, ih _ h.2]
    cases hp : p.2 with
    | some v => simp only [hp, mapSet_lookup_ne _ _ _ _ h.1]
    | none => simp only [hp]

theorem cleanFold_lookup_some (ambient : AmbientEnv) (acc : List (String × String))
    (k v : String) (hnd : (ambient.map Prod.fst).Nodup) (hmem : (k, some v) ∈ ambient) :
    envLookup
      (ambient.foldl
        (fun acc p => match p.2 with | some v => mapSet acc p.1 v | none => acc) acc) k
      = some v := by
  induction ambient generalizing acc with
  | nil => cases hmem
  | cons p rest ih =>
    simp only [List.map_cons, List.nodup_cons] at hnd
    rcases List.mem_cons.mp hmem with heq | hmem2
    · have hp : p = (k, some v) := heq.symm
      subst hp
      have hk : k ∉ rest.map Prod.fst := hnd.1
      rw [List.foldl_cons, cleanFold_lookup_not_mem rest _ k hk]
      simp only [mapSet_lookup_self]
    · rw [List.foldl_cons]
      exact ih _ hnd.2 hmem2

theorem cleanFold_lookup_none (ambient : AmbientEnv) (acc : List (String × String))
    (k : String) (hnd : (ambient.map Prod.fst).Nodup) (hmem : (k, none) ∈ ambient)
    (hacc : envLookup acc k = none) :
    envLookup
      (ambient.foldl
        (fun acc p => match p.2 with | some v => mapSet acc p.1 v | none => acc) acc) k
      = none := by
  induction ambient generalizing acc with
  | nil => exact hacc
  | cons p rest ih =>
    simp only [List.map_cons, List.nodup_cons] at hnd
    rcases List.mem_cons.mp hmem with heq | hmem2
    · have hp : p = (k, none) := heq.symm
      subst hp
      have hk : k ∉ rest.map Prod.fst := hnd.1
      rw [List.foldl_cons, cleanFold_lookup_not_mem rest _ k hk]
      exact hacc
    · have hkrest : k ∈ rest.map Prod.fst :=
        List.mem_map.mpr ⟨(k, none), hmem2, rfl⟩
      have hp1 : p.1 ≠ k := fun he => hnd.1 (he ▸ hkrest)
      have hstep : envLookup
          ((fun acc (p : String × Option String) =>
            match p.2 with | some v => mapSet acc p.1 v | none => acc) acc p) k = none := by
        cases hv : p.2 with
        | some v =>
          simp only [hv]
          rw [mapSet_lookup_ne _ _ _ _ (Ne.symm hp1)]
          exact hacc
        | none => simpa only [hv] using hacc
      rw [List.foldl_cons]
      exact ih _ hnd.2 hmem2 hstep

theorem string_contains_iff (l : List String) (a : String) :
    l.contains a = true ↔ a ∈ l := by
  simp [List.contains]

/-! ### Pool lemmas -/

theorem attemptResult_success (i : Nat) (cfg : ServerConfig) (tools : List ToolInfo)
    (l : List (String × String)) (hc : checkEnv cfg.env = .ok l) :
    attemptResult i cfg (.success tools) =
      some ⟨i, tools.map toOpenAITool, tools.map (fun t => t.name)⟩ := by
  simp [attemptResult, hc]

theorem attemptResult_env_error (i : Nat) (cfg : ServerConfig) (oc : ConnectOutcome)
    (m : String) (hc : checkEnv cfg.env = .error m) :
    attemptResult i cfg oc = none := by
  simp [attemptResult, hc]

theorem attemptResult_preSpawn (i : Nat) (cfg : ServerConfig) (m : String) :
    attemptResult i cfg (.preSpawnFailure m) = none := by
  unfold attemptResult
  cases checkEnv cfg.env <;> rfl

theorem attemptResult_connectFailure (i : Nat) (cfg : ServerConfig) (m : String) :
    attemptResult i cfg (.connectFailure m) = none := by
  unfold attemptResult
  cases checkEnv cfg.env <;> rfl

theorem succeedsAt_some_spec (configs : List ServerConfig) (outcomes : List ConnectOutcome)
    (i : Nat) (kv : String × ActiveClientInfo)
    (h : succeedsAt configs outcomes i = some kv) :
    ∃ cfg tools l, configs[i]? = some cfg ∧ outcomes[i]? = some (.success tools) ∧
      checkEnv cfg.env = .ok l ∧
      kv = (cfg.name, ⟨i, tools.map toOpenAITool, tools.map (fun t => t.name)⟩) := by
  cases hc : configs[i]? with
  | none =>
    have hnone : succeedsAt configs outcomes i = none := by
      unfold succeedsAt
      rw [hc]
    rw [hnone] at h
    cases h
  | some cfg =>
    cases ho : outcomes[i]? with
    | none =>
      have hnone : succeedsAt configs outcomes i = none := by
        unfold succeedsAt
        rw [hc, ho]
      rw [hnone] at h
      cases h
    | some oc =>
      have hred : succeedsAt configs outcomes i =
          Option.map (fun info => (cfg.name, info)) (attemptResult i cfg oc) := by
        unfold succeedsAt
        rw [hc, ho]
      rw [hred] at h
      cases he : checkEnv cfg.env with
      | error m =>
        rw [attemptResult_env_error i cfg oc m he] at h
        cases h
      | ok l =>
        cases oc with
        | preSpawnFailure m =>
          rw [attemptResult_preSpawn] at h
          cases h
        | connectFailure m =>
          rw [attemptResult_connectFailure] at h
          cases h
        | success tools =>
          rw [attemptResult_success i cfg tools l he] at h
          rw [Option.map_some'] at h
          have h2 := Option.some.inj h
          exact ⟨cfg, tools, l, rfl, rfl, he, h2.symm⟩

theorem succeedsAt_none_of_ge (configs : List ServerConfig) (outcomes : List ConnectOutcome)
    (i : Nat) (hge : configs.length ≤ i) :
    succeedsAt configs outcomes i = none := by
  unfold succeedsAt
  rw [List.getElem?_eq_none hge]

theorem initFold_const (configs : List ServerConfig) (outcomes : List ConnectOutcome)
    (order : List Nat) (acc : Pool)
    (h : ∀ i ∈ order, succeedsAt configs outcomes i = none) :
    order.foldl
      (fun pool i =>
        match succeedsAt configs outcomes i with
        | some kv => mapSet pool kv.1 kv.2
        | none => pool) acc = acc := by
  induction order generalizing acc with
  | nil => rfl
  | cons i rest ih =>
    rw [List.foldl_cons]
    have hi := h i (List.mem_cons_self i rest)
    simp only [hi]
    exact ih acc (fun j hj => h j (List.mem_cons_of_mem i hj))

theorem initializeAll_empty (configs : List ServerConfig) (outcomes : List ConnectOutcome)
    (settleOrder : List Nat)
    (h : ∀ i, i < configs.length → succeedsAt configs outcomes i = none) :
    initializeAll configs outcomes settleOrder = [] := by
  apply initFold_const
  intro i _
  by_cases hi : i < configs.length
  · exact h i hi
  · exact succeedsAt_none_of_ge configs outcomes i (Nat.le_of_not_lt hi)

theorem initFold_filterMap (configs : List ServerConfig) (outcomes : List ConnectOutcome)
    (order : List Nat) (acc : Pool)
    (haccKeys : ∀ i ∈ order, ∀ kv, succeedsAt configs outcomes i = some kv →
      kv.1 ∉ acc.map Prod.fst)
    (hpair : order.Pairwise (fun i j => ∀ kv kv2,
      succeedsAt configs outcomes i = some kv →
      succeedsAt configs outcomes j = some kv2 → kv.1 ≠ kv2.1)) :
    order.foldl
      (fun pool i =>
        match succeedsAt configs outcomes i with
        | some kv => mapSet pool kv.1 kv.2
        | none => pool) acc
      = acc ++ order.filterMap (succeedsAt configs outcomes) := by
  induction order generalizing acc with
  | nil => simp
  | cons i rest ih =>
    rw [List.foldl_cons, List.filterMap_cons]
    obtain ⟨hpairHead, hpairTail⟩ := List.pairwise_cons.mp hpair
    cases hs : succeedsAt configs outcomes i with
    | none =>
      simp only [hs]
      exact ih acc (fun j hj kv hkv => haccKeys j (List.mem_cons_of_mem i hj) kv hkv) hpairTail
    | some kv =>
      simp only [hs]
      rw [mapSet_append_of_not_key acc kv.1 kv.2
        (haccKeys i (List.mem_cons_self i rest) kv hs)]
      rw [ih (acc ++ [(kv.1, kv.2)]) ?_ hpairTail]
      · simp
      · intro j hj kv2 hkv2
        rw [List.map_append, List.mem_append]
        push_neg
        refine ⟨haccKeys j (List.mem_cons_of_mem i hj) kv2 hkv2, ?_⟩
        have hne : kv.1 ≠ kv2.1 := hpairHead j hj kv kv2 hs hkv2
        simp [Ne.symm hne]

theorem poolIds_cons (p : String × ActiveClientInfo) (rest : Pool) :
    poolIds (p :: rest) = p.2.clientId :: poolIds rest := rfl

theorem poolIds_mapSet_subset (m : Pool) (k : String) (v : ActiveClientInfo) :
    ∀ x ∈ poolIds (mapSet m k v), x ∈ poolIds m ∨ x = v.clientId := by
  induction m with
  | nil =>
    intro x hx
    rw [show mapSet ([] : Pool) k v = [(k, v)] from rfl, poolIds_cons] at hx
    rcases List.mem_cons.mp hx with h1 | h1
    · exact Or.inr h1
    · exact absurd h1 (List.not_mem_nil x)
  | cons p rest ih =>
    intro x hx
    by_cases hp : p.1 = k
    · have he : mapSet (p :: rest) k v = (k, v) :: rest := by simp [mapSet, hp]
      rw [he, poolIds_cons] at hx
      rcases List.mem_cons.mp hx with h1 | h1
      · exact Or.inr h1
      · exact Or.inl (by rw [poolIds_cons]; exact List.mem_cons_of_mem _ h1)
    · have he : mapSet (p :: rest) k v = p :: mapSet rest k v := by simp [mapSet, hp]
      rw [he, poolIds_cons] at hx
      rcases List.mem_cons.mp hx with h1 | h1
      · exact Or.inl (by rw [poolIds_cons]; exact List.mem_cons.mpr (Or.inl h1))
      · rcases ih x h1 with h2 | h2
        · exact Or.inl (by rw [poolIds_cons]; exact List.mem_cons_of_mem _ h2)
        · exact Or.inr h2

theorem poolIds_mapSet_nodup (m : Pool) (k : String) (v : ActiveClientInfo)
    (hnd : (poolIds m).Nodup) (hfresh : v.clientId ∉ poolIds m) :
    (poolIds (mapSet m k v)).Nodup := by
  induction m with
  | nil =>
    rw [show mapSet ([] : Pool) k v = [(k, v)] from rfl]
    simp [poolIds]
  | cons p rest ih =>
    rw [poolIds_cons, List.nodup_cons] at hnd
    rw [poolIds_cons, List.mem_cons] at hfresh
    push_neg at hfresh
    by_cases hp : p.1 = k
    · have he : mapSet (p :: rest) k v = (k, v) :: rest := by simp [mapSet, hp]
      rw [he, poolIds_cons, List.nodup_cons]
      exact ⟨hfresh.2, hnd.2⟩
    · have he : mapSet (p :: rest) k v = p :: mapSet rest k v := by simp [mapSet, hp]
      rw [he, poolIds_cons, List.nodup_cons]
      refine ⟨?_, ih hnd.2 hfresh.2⟩
      intro hmem
      rcases poolIds_mapSet_subset rest k v _ hmem with h1 | h1
      · exact hnd.1 h1
      · exact hfresh.1 h1.symm

theorem initFold_ids (configs : List ServerConfig) (outcomes : List ConnectOutcome)
    (order : List Nat) (acc : Pool) (hnd : order.Nodup)
    (haccN : (poolIds acc).Nodup)
    (haccS : ∀ x ∈ poolIds acc, succeedsAt configs outcomes x ≠ none ∧ x ∉ order) :
    (poolIds (order.foldl
      (fun pool i =>
        match succeedsAt configs outcomes i with
        | some kv => mapSet pool kv.1 kv.2
        | none => pool) acc)).Nodup ∧
    ∀ x ∈ poolIds (order.foldl
      (fun pool i =>
        match succeedsAt configs outcomes i with
        | some kv => mapSet pool kv.1 kv.2
        | none => pool) acc), succeedsAt configs outcomes x ≠ none := by
  induction order generalizing acc with
  | nil => exact ⟨haccN, fun x hx => (haccS x hx).1⟩
  | cons i rest ih =>
    rw [List.foldl_cons]
    obtain ⟨hi, hrest⟩ := List.nodup_cons.mp hnd
    cases hs : succeedsAt configs outcomes i with
    | none =>
      simp only [hs]
      exact ih acc hrest haccN
        (fun x hx => ⟨(haccS x hx).1, fun hr => (haccS x hx).2 (List.mem_cons_of_mem i hr)⟩)
    | some kv =>
      simp only [hs]
      obtain ⟨cfg, tools, l, _, _, _, hkv⟩ := succeedsAt_some_spec configs outcomes i kv hs
      have hid : kv.2.clientId = i := by rw [hkv]
      have hfresh : kv.2.clientId ∉ poolIds acc := by
        rw [hid]
        intro hmem
        exact (haccS i hmem).2 (List.mem_cons_self i rest)
      apply ih (mapSet acc kv.1 kv.2) hrest (poolIds_mapSet_nodup acc kv.1 kv.2 haccN hfresh)
      intro x hx
      rcases poolIds_mapSet_subset acc kv.1 kv.2 x hx with hold | heq
      · exact ⟨(haccS x hold).1, fun hr => (haccS x hold).2 (List.mem_cons_of_mem i hr)⟩
      · subst heq
        rw [hid]
        refine ⟨by rw [hs]; exact fun he => Option.noConfusion he, hi⟩

theorem initializeAll_ids (configs : List ServerConfig) (outcomes : List ConnectOutcome)
    (settleOrder : List Nat) (hnd : settleOrder.Nodup) :
    (poolIds (initializeAll configs outcomes settleOrder)).Nodup ∧
    ∀ x ∈ poolIds (initializeAll configs outcomes settleOrder),
      succeedsAt configs outcomes x ≠ none := by
  exact initFold_ids configs outcomes settleOrder [] hnd List.nodup_nil
    (fun x hx => absurd hx (List.not_mem_nil x))

theorem closedDuringInit_nodup (configs : List ServerConfig)
    (outcomes : List ConnectOutcome) : (closedDuringInit configs outcomes).Nodup :=
  (List.nodup_range configs.length).filter _

theorem mem_closedDuringInit (configs : List ServerConfig) (outcomes : List ConnectOutcome)
    (i : Nat) (h : i ∈ closedDuringInit configs outcomes) :
    ∃ cfg m, configs[i]? = some cfg ∧ outcomes[i]? = some (.connectFailure m) ∧
      (checkEnv cfg.env).isOk = true := by
  unfold closedDuringInit at h
  obtain ⟨_, hpred⟩ := List.mem_filter.mp h
  cases hc : configs[i]? with
  | none => rw [hc] at hpred; cases hpred
  | some cfg =>
    cases ho : outcomes[i]? with
    | none => rw [hc, ho] at hpred; cases hpred
    | some oc =>
      rw [hc, ho] at hpred
      cases oc with
      | preSpawnFailure m => cases hpred
      | success tools => cases hpred
      | connectFailure m => exact ⟨cfg, m, rfl, rfl, hpred⟩

theorem succeedsAt_not_closedDuringInit (configs : List ServerConfig)
    (outcomes : List ConnectOutcome) (i : Nat)
    (h : succeedsAt configs outcomes i ≠ none) :
    i ∉ closedDuringInit configs outcomes := by
  intro hmem
  obtain ⟨cfg, m, hc, ho, _⟩ := mem_closedDuringInit configs outcomes i hmem
  apply h
  have hred : succeedsAt configs outcomes i =
      Option.map (fun info => (cfg.name, info)) (attemptResult i cfg (.connectFailure m)) := by
    unfold succeedsAt
    rw [hc, ho]
  rw [hred, attemptResult_connectFailure]
  rfl

theorem initFold_skip (configs : List ServerConfig) (outcomes : List ConnectOutcome)
    (j : Nat) (hj : succeedsAt configs outcomes j = none) :
    ∀ (order : List Nat) (acc : Pool),
      order.foldl
        (fun pool i =>
          match succeedsAt configs outcomes i with
          | some kv => mapSet pool kv.1 kv.2
          | none => pool) acc
      = (order.filter (fun i => i != j)).foldl
        (fun pool i =>
          match succeedsAt configs outcomes i with
          | some kv => mapSet pool kv.1 kv.2
          | none => pool) acc := by
  intro order
  induction order with
  | nil => intro acc; rfl
  | cons i rest ih =>
    intro acc
    by_cases hij : i = j
    · subst hij
      rw [List.foldl_cons]
      have hfilter : (i :: rest).filter (fun x => x != i) = rest.filter (fun x => x != i) := by
        simp [List.filter_cons]
      rw [hfilter]
      simp only [hj]
      exact ih acc
    · have hfilter : (i :: rest).filter (fun x => x != j)
          = i :: rest.filter (fun x => x != j) := by
        simp [List.filter_cons, hij]
      rw [hfilter, List.foldl_cons, List.foldl_cons]
      exact ih _

theorem config_names_distinct (configs : List ServerConfig)
    (hnames : (configs.map ServerConfig.name).Nodup) (i j : Nat) (hij : i ≠ j)
    (c1 c2 : ServerConfig) (h1 : configs[i]? = some c1) (h2 : configs[j]? = some c2) :
    c1.name ≠ c2.name := by
  intro heq
  have hi : i < configs.length := by
    by_contra hlt
    rw [List.getElem?_eq_none (Nat.le_of_not_lt hlt)] at h1
    cases h1
  have hj : j < configs.length := by
    by_contra hlt
    rw [List.getElem?_eq_none (Nat.le_of_not_lt hlt)] at h2
    cases h2
  have hgi : configs[i] = c1 := by
    have := List.getElem?_eq_getElem hi
    rw [h1] at this
    exact (Option.some.inj this).symm
  have hgj : configs[j] = c2 := by
    have := List.getElem?_eq_getElem hj
    rw [h2] at this
    exact (Option.some.inj this).symm
  have hmapi : (configs.map ServerConfig.name).get ⟨i, by simpa using hi⟩ = c1.name := by
    simp [hgi]
  have hmapj : (configs.map ServerConfig.name).get ⟨j, by simpa using hj⟩ = c2.name := by
    simp [hgj]
  apply hij
  have hinj := List.nodup_iff_injective_get.mp hnames
  have hget : (configs.map ServerConfig.name).get ⟨i, by simpa using hi⟩
      = (configs.map ServerConfig.name).get ⟨j, by simpa using hj⟩ := by
    rw [hmapi, hmapj, heq]
  exact congrArg Fin.val (hinj hget)


/-! ### Router and executor lemmas -/

theorem resolve_first (pool : Pool) (tn : String) :
    ∀ (i : Nat) (hi : i < pool.length),
      tn ∈ (pool.get ⟨i, hi⟩).2.toolNames →
      (∀ j (hj : j < i), tn ∉ (pool.get ⟨j, Nat.lt_trans hj hi⟩).2.toolNames) →
      resolve pool tn = some (pool.get ⟨i, hi⟩) := by
  induction pool with
  | nil =>
    intro i hi
    exact absurd hi (Nat.not_lt_zero i)
  | cons p rest ih =>
    intro i hi hmem hbefore
    cases i with
    | zero =>
      have hc : p.2.toolNames.contains tn = true := (string_contains_iff _ _).mpr hmem
      have hfind : List.find? (fun q => q.2.toolNames.contains tn) (p :: rest) = some p :=
        List.find?_cons_of_pos _ hc
      exact hfind
    | succ n =>
      have h0 : tn ∉ p.2.toolNames := hbefore 0 (Nat.succ_pos n)
      have hc : ¬p.2.toolNames.contains tn = true := by
        intro hcc
        exact h0 ((string_contains_iff _ _).mp hcc)
      have hstep : resolve (p :: rest) tn = resolve rest tn :=
        List.find?_cons_of_neg _ (by simpa using hc)
      rw [hstep]
      exact ih n (Nat.lt_of_succ_lt_succ hi) hmem
        (fun j hj => hbefore (j + 1) (Nat.succ_lt_succ hj))

theorem resolve_unique_owner (pool : Pool) (tn : String) (n : String)
    (c : ActiveClientInfo) (hmem : (n, c) ∈ pool) (hc : tn ∈ c.toolNames)
    (huniq : ∀ p ∈ pool, tn ∈ p.2.toolNames → p = (n, c)) :
    resolve pool tn = some (n, c) := by
  induction pool with
  | nil => cases hmem
  | cons p rest ih =>
    by_cases hp : p.2.toolNames.contains tn = true
    · have hpc := huniq p (List.mem_cons_self p rest) ((string_contains_iff _ _).mp hp)
      have hfind : List.find? (fun q => q.2.toolNames.contains tn) (p :: rest) = some p :=
        List.find?_cons_of_pos _ hp
      rw [← hpc]
      exact hfind
    · have hstep : resolve (p :: rest) tn = resolve rest tn :=
        List.find?_cons_of_neg _ (by simpa using hp)
      rcases List.mem_cons.mp hmem with he | hrest
      · exfalso
        apply hp
        rw [string_contains_iff]
        rw [← he]
        exact hc
      · rw [hstep]
        exact ih hrest (fun q hq ht => huniq q (List.mem_cons_of_mem p hq) ht)

theorem resolve_not_found (pool : Pool) (tn : String)
    (h : ∀ p ∈ pool, tn ∉ p.2.toolNames) : resolve pool tn = none := by
  unfold resolve
  rw [List.find?_eq_none]
  intro p hp
  simp only [Bool.not_eq_true]
  rw [Bool.eq_false_iff]
  intro hcc
  exact h p hp ((string_contains_iff _ _).mp hcc)

theorem execOne_callId (pool : Pool) (invoke : Nat → String → Json → InvokeOutcome)
    (tc : ToolCall) : ((execOne pool invoke tc).1).callId = some tc.id := by
  cases ha : tc.argumentsJson with
  | error m => simp [execOne, ha, Msg.callId]
  | ok args =>
    cases hr : resolve pool tc.functionName with
    | none => simp [execOne, ha, hr, Msg.callId]
    | some kv =>
      cases hi : invoke kv.2.clientId tc.functionName args with
      | ok c => simp [execOne, ha, hr, hi, Msg.callId]
      | err m => simp [execOne, ha, hr, hi, Msg.callId]

theorem execOne_isTool (pool : Pool) (invoke : Nat → String → Json → InvokeOutcome)
    (tc : ToolCall) : ((execOne pool invoke tc).1).isTool = true := by
  cases ha : tc.argumentsJson with
  | error m => simp [execOne, ha, Msg.isTool]
  | ok args =>
    cases hr : resolve pool tc.functionName with
    | none => simp [execOne, ha, hr, Msg.isTool]
    | some kv =>
      cases hi : invoke kv.2.clientId tc.functionName args with
      | ok c => simp [execOne, ha, hr, hi, Msg.isTool]
      | err m => simp [execOne, ha, hr, hi, Msg.isTool]

theorem execute_length (pool : Pool) (invoke : Nat → String → Json → InvokeOutcome)
    (tcs : List ToolCall) : (execute pool invoke tcs).length = tcs.length :=
  List.length_map tcs (execOne pool invoke)

theorem execute_getElem (pool : Pool) (invoke : Nat → String → Json → InvokeOutcome)
    (tcs : List ToolCall) (i : Nat) :
    (execute pool invoke tcs)[i]? = (tcs[i]?).map (execOne pool invoke) := by
  unfold execute
  exact List.getElem?_map (execOne pool invoke) tcs i

/-! ### Loop lemmas -/

theorem chatLoop_zero (catalog : List OpenAITool) (pool : Pool)
    (invoke : Nat → String → Json → InvokeOutcome) (model : List Msg → AssistantResponse)
    (count : Nat) (msgs : List Msg) :
    chatLoop catalog pool invoke model 0 count msgs = ⟨[], [], count, msgs⟩ := rfl

theorem chatLoop_succ_none (catalog : List OpenAITool) (pool : Pool)
    (invoke : Nat → String → Json → InvokeOutcome) (model : List Msg → AssistantResponse)
    (fuel count : Nat) (msgs : List Msg) (h : (model msgs).tool_calls = none) :
    chatLoop catalog pool invoke model (fuel + 1) count msgs =
      ⟨[.message (respToMsg (model msgs))], [mkCall catalog msgs], count + 1,
        msgs ++ [respToMsg (model msgs)]⟩ := by
  simp [chatLoop, h]

theorem chatLoop_succ_some (catalog : List OpenAITool) (pool : Pool)
    (invoke : Nat → String → Json → InvokeOutcome) (model : List Msg → AssistantResponse)
    (fuel count : Nat) (msgs : List Msg) (tcs : List ToolCall)
    (h : (model msgs).tool_calls = some tcs) :
    chatLoop catalog pool invoke model (fuel + 1) count msgs =
      ⟨.message (respToMsg (model msgs)) ::
         (((execute pool invoke tcs).map Prod.fst).map Event.message ++
           (chatLoop catalog pool invoke model fuel (count + 1)
             (msgs ++ respToMsg (model msgs) ::
               (execute pool invoke tcs).map Prod.fst)).events),
       mkCall catalog msgs ::
         (chatLoop catalog pool invoke model fuel (count + 1)
           (msgs ++ respToMsg (model msgs) ::
             (execute pool invoke tcs).map Prod.fst)).calls,
       (chatLoop catalog pool invoke model fuel (count + 1)
         (msgs ++ respToMsg (model msgs) ::
           (execute pool invoke tcs).map Prod.fst)).finalCount,
       (chatLoop catalog pool invoke model fuel (count + 1)
         (msgs ++ respToMsg (model msgs) ::
           (execute pool invoke tcs).map Prod.fst)).finalMsgs⟩ := by
  simp [chatLoop, h]

theorem chatLoop_calls_length_le (catalog : List OpenAITool) (pool : Pool)
    (invoke : Nat → String → Json → InvokeOutcome) (model : List Msg → AssistantResponse) :
    ∀ (fuel count : Nat) (msgs : List Msg),
      (chatLoop catalog pool invoke model fuel count msgs).calls.length ≤ fuel := by
  intro fuel
  induction fuel with
  | zero =>
    intro count msgs
    rw [chatLoop_zero]
    exact Nat.le_refl 0
  | succ n ih =>
    intro count msgs
    cases h : (model msgs).tool_calls with
    | none =>
      rw [chatLoop_succ_none catalog pool invoke model n count msgs h]
      exact Nat.succ_le_succ (Nat.zero_le n)
    | some tcs =>
      rw [chatLoop_succ_some catalog pool invoke model n count msgs tcs h]
      exact Nat.succ_le_succ (ih _ _)

theorem chatLoop_finalCount (catalog : List OpenAITool) (pool : Pool)
    (invoke : Nat → String → Json → InvokeOutcome) (model : List Msg → AssistantResponse) :
    ∀ (fuel count : Nat) (msgs : List Msg),
      (chatLoop catalog pool invoke model fuel count msgs).finalCount
        = count + (chatLoop catalog pool invoke model fuel count msgs).calls.length := by
  intro fuel
  induction fuel with
  | zero =>
    intro count msgs
    rw [chatLoop_zero]
    rfl
  | succ n ih =>
    intro count msgs
    cases h : (model msgs).tool_calls with
    | none =>
      rw [chatLoop_succ_none catalog pool invoke model n count msgs h]
      rfl
    | some tcs =>
      rw [chatLoop_succ_some catalog pool invoke model n count msgs tcs h]
      have := ih (count + 1)
        (msgs ++ respToMsg (model msgs) :: (execute pool invoke tcs).map Prod.fst)
      simp only [List.length_cons]
      omega

theorem chatLoop_calls_head (catalog : List OpenAITool) (pool : Pool)
    (invoke : Nat → String → Json → InvokeOutcome) (model : List Msg → AssistantResponse)
    (fuel count : Nat) (msgs : List Msg) (hf : 0 < fuel) :
    (chatLoop catalog pool invoke model fuel count msgs).calls.head?
      = some (mkCall catalog msgs) := by
  cases fuel with
  | zero => exact absurd hf (Nat.lt_irrefl 0)
  | succ n =>
    cases h : (model msgs).tool_calls with
    | none =>
      rw [chatLoop_succ_none catalog pool invoke model n count msgs h]
      rfl
    | some tcs =>
      rw [chatLoop_succ_some catalog pool invoke model n count msgs tcs h]
      rfl

theorem chatLoop_calls_shape (catalog : List OpenAITool) (pool : Pool)
    (invoke : Nat → String → Json → InvokeOutcome) (model : List Msg → AssistantResponse) :
    ∀ (fuel count : Nat) (msgs : List Msg),
      ∀ c ∈ (chatLoop catalog pool invoke model fuel count msgs).calls,
        ∃ m, c = mkCall catalog m ∧ msgs <+: m := by
  intro fuel
  induction fuel with
  | zero =>
    intro count msgs c hc
    rw [chatLoop_zero] at hc
    exact absurd hc (List.not_mem_nil c)
  | succ n ih =>
    intro count msgs c hc
    cases h : (model msgs).tool_calls with
    | none =>
      rw [chatLoop_succ_none catalog pool invoke model n count msgs h] at hc
      rcases List.mem_cons.mp hc with he | he
      · exact ⟨msgs, he, ⟨[], List.append_nil msgs⟩⟩
      · exact absurd he (List.not_mem_nil c)
    | some tcs =>
      rw [chatLoop_succ_some catalog pool invoke model n count msgs tcs h] at hc
      rcases List.mem_cons.mp hc with he | he
      · exact ⟨msgs, he, ⟨[], List.append_nil msgs⟩⟩
      · obtain ⟨m, hcm, hpre⟩ := ih (count + 1)
          (msgs ++ respToMsg (model msgs) :: (execute pool invoke tcs).map Prod.fst) c he
        obtain ⟨t, ht⟩ := hpre
        refine ⟨m, hcm, ?_⟩
        refine ⟨(respToMsg (model msgs) :: (execute pool invoke tcs).map Prod.fst) ++ t, ?_⟩
        rw [← List.append_assoc, ht]

theorem chatLoop_events_message (catalog : List OpenAITool) (pool : Pool)
    (invoke : Nat → String → Json → InvokeOutcome) (model : List Msg → AssistantResponse) :
    ∀ (fuel count : Nat) (msgs : List Msg),
      ∀ e ∈ (chatLoop catalog pool invoke model fuel count msgs).events,
        ∃ m, e = .message m := by
  intro fuel
  induction fuel with
  | zero =>
    intro count msgs e he
    rw [chatLoop_zero] at he
    exact absurd he (List.not_mem_nil e)
  | succ n ih =>
    intro count msgs e he
    cases h : (model msgs).tool_calls with
    | none =>
      rw [chatLoop_succ_none catalog pool invoke model n count msgs h] at he
      rcases List.mem_cons.mp he with h1 | h1
      · exact ⟨respToMsg (model msgs), h1⟩
      · exact absurd h1 (List.not_mem_nil e)
    | some tcs =>
      rw [chatLoop_succ_some catalog pool invoke model n count msgs tcs h] at he
      rcases List.mem_cons.mp he with h1 | h1
      · exact ⟨respToMsg (model msgs), h1⟩
      · rcases List.mem_append.mp h1 with h2 | h2
        · obtain ⟨m, _, hm⟩ := List.mem_map.mp h2
          exact ⟨m, hm.symm⟩
        · exact ih (count + 1)
            (msgs ++ respToMsg (model msgs) :: (execute pool invoke tcs).map Prod.fst) e h2

theorem chatLoop_always_some (catalog : List OpenAITool) (pool : Pool)
    (invoke : Nat → String → Json → InvokeOutcome) (model : List Msg → AssistantResponse)
    (hall : ∀ ms, ((model ms).tool_calls).isSome = true) :
    ∀ (fuel count : Nat) (msgs : List Msg),
      (chatLoop catalog pool invoke model fuel count msgs).calls.length = fuel := by
  intro fuel
  induction fuel with
  | zero =>
    intro count msgs
    rw [chatLoop_zero]
    rfl
  | succ n ih =>
    intro count msgs
    cases h : (model msgs).tool_calls with
    | none =>
      have := hall msgs
      rw [h] at this
      cases this
    | some tcs =>
      rw [chatLoop_succ_some catalog pool invoke model n count msgs tcs h]
      simp only [List.length_cons]
      rw [ih]

/-! ### Stream lemmas -/

theorem runStream_fatal (servers : List ServerConfig) (outcomes : List ConnectOutcome)
    (settleOrder : List Nat) (invoke : Nat → String → Json → InvokeOutcome)
    (model : List Msg → AssistantResponse) (initialMessages : List Msg)
    (hpool : initializeAll servers outcomes settleOrder = []) (hs : servers ≠ []) :
    runStream servers outcomes settleOrder invoke model initialMessages =
      ⟨[.error "Failed to connect to any configured MCP server."], []⟩ := by
  unfold runStream
  simp [hpool, hs]

theorem runStream_nonFatal (servers : List ServerConfig) (outcomes : List ConnectOutcome)
    (settleOrder : List Nat) (invoke : Nat → String → Json → InvokeOutcome)
    (model : List Msg → AssistantResponse) (initialMessages : List Msg)
    (h : servers = [] ∨ initializeAll servers outcomes settleOrder ≠ []) :
    runStream servers outcomes settleOrder invoke model initialMessages =
      ⟨(chatLoop (buildCatalog (initializeAll servers outcomes settleOrder))
          (initializeAll servers outcomes settleOrder) invoke model
          MAX_TOOL_ITERATIONS 0 initialMessages).events ++
        (if MAX_TOOL_ITERATIONS ≤
            (chatLoop (buildCatalog (initializeAll servers outcomes settleOrder))
              (initializeAll servers outcomes settleOrder) invoke model
              MAX_TOOL_ITERATIONS 0 initialMessages).finalCount
          then [.message warningMsg] else []) ++ [.done],
       (chatLoop (buildCatalog (initializeAll servers outcomes settleOrder))
          (initializeAll servers outcomes settleOrder) invoke model
          MAX_TOOL_ITERATIONS 0 initialMessages).calls⟩ := by
  have hcond : ((initializeAll servers outcomes settleOrder).isEmpty
      && !servers.isEmpty) = false := by
    rcases h with h | h
    · subst h
      simp
    · rw [Bool.and_eq_false_iff]
      left
      rw [List.isEmpty_eq_false_iff_exists_mem]
      cases hp : initializeAll servers outcomes settleOrder with
      | nil => exact absurd hp h
      | cons a rest => exact ⟨a, List.mem_cons_self a rest⟩
  unfold runStream
  simp only [hcond, Bool.false_eq_true, if_false]



theorem getElem_one_cons {α : Type} (a : α) (l : List α) : (a :: l)[1]? = l.head? := by
  cases l with
  | nil => simp
  | cons b t => simp

theorem closedDuringInit_succeedsAt_none (configs : List ServerConfig)
    (outcomes : List ConnectOutcome) (i : Nat)
    (h : i ∈ closedDuringInit configs outcomes) :
    succeedsAt configs outcomes i = none := by
  obtain ⟨cfg, m, hc, ho, _⟩ := mem_closedDuringInit configs outcomes i h
  have hred : succeedsAt configs outcomes i =
      Option.map (fun info => (cfg.name, info)) (attemptResult i cfg (.connectFailure m)) := by
    unfold succeedsAt
    rw [hc, ho]
  rw [hred, attemptResult_connectFailure]
  rfl

/-! ### Claim theorems -/

/-- C5: `resolve` is a deterministic first-match lookup over the pool.
(1) Among all connections whose tool-name set contains the name, the
one first in pool iteration order wins — the collision tie-break;
determinism across repeated calls is inherent because `resolve` is a
pure function of the pool.  (2) Round trip: a name exposed by exactly
one connection resolves back to that owning connection.  (3) A name
absent from every connection's tool-name set yields not-found, which
the executor converts into an error-shaped tool result rather than a
fault. -/
theorem c5_resolve_first_match (pool : Pool) (tn : String) :
    (∀ (i : Nat) (hi : i < pool.length),
       tn ∈ (pool.get ⟨i, hi⟩).2.toolNames →
       (∀ j (hj : j < i), tn ∉ (pool.get ⟨j, Nat.lt_trans hj hi⟩).2.toolNames) →
       resolve pool tn = some (pool.get ⟨i, hi⟩)) ∧
    (∀ (n : String) (c : ActiveClientInfo), (n, c) ∈ pool → tn ∈ c.toolNames →
       (∀ p ∈ pool, tn ∈ p.2.toolNames → p = (n, c)) →
       resolve pool tn = some (n, c)) ∧
    ((∀ p ∈ pool, tn ∉ p.2.toolNames) →
       resolve pool tn = none ∧
       ∀ (invoke : Nat → String → Json → InvokeOutcome) (tc : ToolCall) (args : Json),
         tc.functionName = tn → tc.argumentsJson = .ok args →
         execOne pool invoke tc =
           (.tool tc.id ("Error: Tool " ++ apos ++ tn ++ apos ++ " not available."),
            none)) := by
  refine ⟨resolve_first pool tn,
    fun n c hmem hc huniq => resolve_unique_owner pool tn n c hmem hc huniq, ?_⟩
  intro hnone
  refine ⟨resolve_not_found pool tn hnone, ?_⟩
  intro invoke tc args hf ha
  have hr2 : resolve pool tn = none := resolve_not_found pool tn hnone
  simp [execOne, ha, hf, hr2]

/-- Witness for C5 on the concrete pool `wPool`: the collision on `X`
resolves to the first connection, the unique owner of `Y` is found, and
the unknown name `Z` is not found. -/
theorem c5_witness :
    resolve wPool "X" = some ("A", wInfoA) ∧
    resolve wPool "Y" = some ("B", wInfoB) ∧
    resolve wPool "Z" = none := by
  refine ⟨?_, ?_, ?_⟩
  · exact (c5_resolve_first_match wPool "X").1 0 (by decide) (by decide)
      (fun j hj => absurd hj (Nat.not_lt_zero j))
  · refine (c5_resolve_first_match wPool "Y").2.1 "B" wInfoB
      (List.mem_cons_of_mem _ (List.mem_cons_self _ _)) (by decide) ?_
    intro p hp hy
    rcases List.mem_cons.mp hp with h1 | h1
    · exfalso
      rw [h1] at hy
      exact absurd hy (by decide)
    · rcases List.mem_cons.mp h1 with h2 | h2
      · exact h2
      · exact absurd h2 (List.not_mem_nil p)
  · refine ((c5_resolve_first_match wPool "Z").2.2 ?_).1
    intro p hp
    rcases List.mem_cons.mp hp with h1 | h1
    · rw [h1]
      decide
    · rcases List.mem_cons.mp h1 with h2 | h2
      · rw [h2]
        decide
      · exact absurd h2 (List.not_mem_nil p)

/-- C6: the executor maps a batch of tool-call requests to a result
sequence of the same length, with the result at each position computed
from the request at that position (order preservation, `Promise.all`
keeping request order) and carrying that request's `tool_call_id` as a
tool-role message; and the driver's next completion call is made only
with the history extended by the assistant message and the whole
settled batch. -/
theorem c6_execute_batch (pool : Pool) (invoke : Nat → String → Json → InvokeOutcome)
    (tcs : List ToolCall) :
    (execute pool invoke tcs).length = tcs.length ∧
    (∀ i : Nat, (execute pool invoke tcs)[i]? = (tcs[i]?).map (execOne pool invoke)) ∧
    (∀ tc ∈ tcs, ((execOne pool invoke tc).1).callId = some tc.id ∧
       ((execOne pool invoke tc).1).isTool = true) ∧
    (∀ (catalog : List OpenAITool) (model : List Msg → AssistantResponse)
       (fuel count : Nat) (msgs : List Msg) (tcs2 : List ToolCall),
       (model msgs).tool_calls = some tcs2 →
       (chatLoop catalog pool invoke model (fuel + 1 + 1) count msgs).calls[1]? =
         some (mkCall catalog (msgs ++ respToMsg (model msgs) ::
           (execute pool invoke tcs2).map Prod.fst))) := by
  refine ⟨execute_length pool invoke tcs, execute_getElem pool invoke tcs,
    fun tc _ => ⟨execOne_callId pool invoke tc, execOne_isTool pool invoke tc⟩, ?_⟩
  intro catalog model fuel count msgs tcs2 h
  rw [chatLoop_succ_some catalog pool invoke model (fuel + 1) count msgs tcs2 h]
  have hcalls : (mkCall catalog msgs ::
      (chatLoop catalog pool invoke model (fuel + 1) (count + 1)
        (msgs ++ respToMsg (model msgs) ::
          (execute pool invoke tcs2).map Prod.fst)).calls)[1]?
      = (chatLoop catalog pool invoke model (fuel + 1) (count + 1)
          (msgs ++ respToMsg (model msgs) ::
            (execute pool invoke tcs2).map Prod.fst)).calls.head? :=
    getElem_one_cons _ _
  rw [hcalls]
  exact chatLoop_calls_head catalog pool invoke model (fuel + 1) (count + 1)
    (msgs ++ respToMsg (model msgs) :: (execute pool invoke tcs2).map Prod.fst)
    (Nat.succ_pos fuel)

/-- Witness for C6 on a concrete two-request batch and a concrete run:
the batch keeps its length and the second completion call of the run
carries the in-order results of the first batch. -/
theorem c6_witness :
    (execute wPool cInvoke [sampleCall, badCall]).length = 2 ∧
    (chatLoop [] wPool cInvoke cModelAlways (0 + 1 + 1) 0 []).calls[1]? =
      some (mkCall [] ([] ++ respToMsg (cModelAlways []) ::
        (execute wPool cInvoke [sampleCall]).map Prod.fst)) := by
  refine ⟨?_, ?_⟩
  · exact (c6_execute_batch wPool cInvoke [sampleCall, badCall]).1
  · exact (c6_execute_batch wPool cInvoke [sampleCall, badCall]).2.2.2
      [] cModelAlways 0 0 [] [sampleCall] rfl

/-- C7: a tool-call request whose argument string fails to parse
produces an error-outcome tool-role result for that call without
resolving or invoking any adapter (the instrumented adapter handle is
`none` — the pool is untouched for that call); every other position of
the batch is computed independently from its own request; and the
conversation loop continues normally: the pass emits the parse-error
tool message and still reaches at least one further completion call. -/
theorem c7_parse_failure (pool : Pool) (invoke : Nat → String → Json → InvokeOutcome)
    (tc : ToolCall) (m : String) (h : tc.argumentsJson = .error m) :
    execOne pool invoke tc =
      (.tool tc.id ("Error: Invalid arguments - " ++ m), none) ∧
    (∀ (tcs : List ToolCall) (j : Nat),
       (execute pool invoke tcs)[j]? = (tcs[j]?).map (execOne pool invoke)) ∧
    (∀ (catalog : List OpenAITool) (model : List Msg → AssistantResponse)
       (fuel count : Nat) (msgs : List Msg) (tcs : List ToolCall),
       (model msgs).tool_calls = some tcs → tc ∈ tcs →
       Event.message (.tool tc.id ("Error: Invalid arguments - " ++ m)) ∈
         (chatLoop catalog pool invoke model (fuel + 1 + 1) count msgs).events ∧
       2 ≤ (chatLoop catalog pool invoke model (fuel + 1 + 1) count msgs).calls.length) := by
  have hone : execOne pool invoke tc =
      (.tool tc.id ("Error: Invalid arguments - " ++ m), none) := by
    simp [execOne, h]
  refine ⟨hone, fun tcs j => execute_getElem pool invoke tcs j, ?_⟩
  intro catalog model fuel count msgs tcs hm hmem
  rw [chatLoop_succ_some catalog pool invoke model (fuel + 1) count msgs tcs hm]
  constructor
  · have hfst : (execOne pool invoke tc).1 =
        Msg.tool tc.id ("Error: Invalid arguments - " ++ m) := by
      rw [hone]
    rw [← hfst]
    apply List.mem_cons_of_mem
    apply List.mem_append_left
    apply List.mem_map.mpr
    refine ⟨(execOne pool invoke tc).1, ?_, rfl⟩
    apply List.mem_map.mpr
    refine ⟨execOne pool invoke tc, ?_, rfl⟩
    exact List.mem_map.mpr ⟨tc, hmem, rfl⟩
  · have hh := chatLoop_calls_head catalog pool invoke model (fuel + 1) (count + 1)
      (msgs ++ respToMsg (model msgs) :: (execute pool invoke tcs).map Prod.fst)
      (Nat.succ_pos fuel)
    rw [List.length_cons]
    cases hcl : (chatLoop catalog pool invoke model (fuel + 1) (count + 1)
        (msgs ++ respToMsg (model msgs) ::
          (execute pool invoke tcs).map Prod.fst)).calls with
    | nil =>
      rw [hcl] at hh
      cases hh
    | cons a l =>
      simp only [List.length_cons]
      omega

/-- Witness for C7: the concrete malformed-argument call `badCall`
yields the parse-error tool message with no adapter contacted, and in a
concrete run the loop emits that message and makes a second completion
call. -/
theorem c7_witness :
    execOne wPool cInvoke badCall =
      (.tool "call-2"
        ("Error: Invalid arguments - Unexpected token b in JSON at position 1"), none) ∧
    Event.message (.tool "call-2"
        ("Error: Invalid arguments - Unexpected token b in JSON at position 1")) ∈
      (chatLoop [] wPool cInvoke cModelBadCall (0 + 1 + 1) 0 []).events ∧
    2 ≤ (chatLoop [] wPool cInvoke cModelBadCall (0 + 1 + 1) 0 []).calls.length := by
  have h := c7_parse_failure wPool cInvoke badCall
    "Unexpected token b in JSON at position 1" rfl
  have h3 := h.2.2 [] cModelBadCall 0 0 [] [badCall] rfl (List.mem_cons_self _ _)
  exact ⟨h.1, h3.1, h3.2⟩



/-- C3: when the server list is non-empty and every connection attempt
fails (env parse failure, filesystem checks, spawn/handshake failure or
timeout), the request fails with the aggregate unavailable condition:
the stream consists of exactly one error frame — so the last event is
that error frame, no `done` frame is emitted, and no tool-result
message frame is emitted. -/
theorem c3_aggregate_unavailable (messages : List Msg) (servers : List ServerConfig)
    (outcomes : List ConnectOutcome) (settleOrder : List Nat)
    (invoke : Nat → String → Json → InvokeOutcome)
    (model : List Msg → AssistantResponse)
    (hm : messages ≠ []) (hs : servers ≠ [])
    (hfail : ∀ i, i < servers.length → succeedsAt servers outcomes i = none) :
    POSTHandler ⟨messages, servers⟩ outcomes settleOrder invoke model =
      .stream ⟨[.error "Failed to connect to any configured MCP server."], []⟩ := by
  have hpool : initializeAll servers outcomes settleOrder = [] :=
    initializeAll_empty servers outcomes settleOrder hfail
  have hnotempty : messages.isEmpty = false := by
    cases messages with
    | nil => exact absurd rfl hm
    | cons a l => rfl
  unfold POSTHandler
  simp only [hnotempty, Bool.false_eq_true, if_false]
  rw [runStream_fatal servers outcomes settleOrder invoke model messages hpool hs]

/-- Witness for C3: one descriptor pointing at a nonexistent path
(scenario A) — the attempt fails pre-spawn, the pool is empty, and the
stream is the single error frame with no `done`. -/
theorem c3_witness :
    POSTHandler ⟨[Msg.user "hi"], [cfgA]⟩ [.preSpawnFailure "Script not found"] [0]
        cInvoke cModelAlways =
      .stream ⟨[.error "Failed to connect to any configured MCP server."], []⟩ := by
  apply c3_aggregate_unavailable
  · intro h
    cases h
  · intro h
    cases h
  · intro i hi
    have hi1 : i = 0 := by
      simp only [List.length_cons, List.length_nil] at hi
      omega
    subst hi1
    have hred : succeedsAt [cfgA] [.preSpawnFailure "Script not found"] 0 =
        Option.map (fun info => (cfgA.name, info))
          (attemptResult 0 cfgA (.preSpawnFailure "Script not found")) := rfl
    rw [hred, attemptResult_preSpawn]
    rfl

/-- C9: every completion call of a run is made with the full current
message history (the caller-supplied history is a prefix of every
call's message list, and the first call is made with exactly the
caller-supplied history), with `tools`/`tool_choice` passed as the
catalog plus `auto` exactly when the aggregated catalog is non-empty
and omitted when it is empty; an empty server list is legal and yields
a no-tools conversation with no error frame. -/
theorem c9_completion_calls (servers : List ServerConfig) (outcomes : List ConnectOutcome)
    (settleOrder : List Nat) (invoke : Nat → String → Json → InvokeOutcome)
    (model : List Msg → AssistantResponse) (initialMessages : List Msg) :
    (∀ c ∈ (runStream servers outcomes settleOrder invoke model initialMessages).calls,
       initialMessages <+: c.messages ∧
       c.tools = (if (buildCatalog (initializeAll servers outcomes settleOrder)).isEmpty
                  then none
                  else some (buildCatalog (initializeAll servers outcomes settleOrder))) ∧
       c.tool_choice =
         (if (buildCatalog (initializeAll servers outcomes settleOrder)).isEmpty
          then none else some "auto")) ∧
    ((servers = [] ∨ initializeAll servers outcomes settleOrder ≠ []) →
       (runStream servers outcomes settleOrder invoke model initialMessages).calls.head?
         = some (mkCall (buildCatalog (initializeAll servers outcomes settleOrder))
             initialMessages)) ∧
    (servers = [] →
       buildCatalog (initializeAll servers outcomes settleOrder) = [] ∧
       (∀ c ∈ (runStream servers outcomes settleOrder invoke model initialMessages).calls,
          c.tools = none ∧ c.tool_choice = none) ∧
       (∀ e, Event.error e ∉
          (runStream servers outcomes settleOrder invoke model initialMessages).events)) := by
  have hshape : ∀ c ∈ (runStream servers outcomes settleOrder invoke model
      initialMessages).calls,
      initialMessages <+: c.messages ∧
      c.tools = (if (buildCatalog (initializeAll servers outcomes settleOrder)).isEmpty
                 then none
                 else some (buildCatalog (initializeAll servers outcomes settleOrder))) ∧
      c.tool_choice =
        (if (buildCatalog (initializeAll servers outcomes settleOrder)).isEmpty
         then none else some "auto") := by
    by_cases hc : servers = [] ∨ initializeAll servers outcomes settleOrder ≠ []
    · rw [runStream_nonFatal servers outcomes settleOrder invoke model initialMessages hc]
      intro c hcm
      obtain ⟨m, hm, hpre⟩ := chatLoop_calls_shape
        (buildCatalog (initializeAll servers outcomes settleOrder))
        (initializeAll servers outcomes settleOrder) invoke model
        MAX_TOOL_ITERATIONS 0 initialMessages c hcm
      subst hm
      exact ⟨hpre, rfl, rfl⟩
    · push_neg at hc
      rw [runStream_fatal servers outcomes settleOrder invoke model initialMessages
        hc.2 hc.1]
      intro c hcm
      exact absurd hcm (List.not_mem_nil c)
  refine ⟨hshape, ?_, ?_⟩
  · intro hc
    rw [runStream_nonFatal servers outcomes settleOrder invoke model initialMessages hc]
    exact chatLoop_calls_head
      (buildCatalog (initializeAll servers outcomes settleOrder))
      (initializeAll servers outcomes settleOrder) invoke model
      MAX_TOOL_ITERATIONS 0 initialMessages (by decide)
  · intro hse
    have hpool : initializeAll servers outcomes settleOrder = [] := by
      subst hse
      exact initializeAll_empty [] outcomes settleOrder
        (fun i hi => absurd hi (by simp))
    have hcat : buildCatalog (initializeAll servers outcomes settleOrder) = [] := by
      rw [hpool]
      rfl
    refine ⟨hcat, ?_, ?_⟩
    · intro c hcm
      obtain ⟨_, ht, htc⟩ := hshape c hcm
      rw [hcat] at ht htc
      exact ⟨ht, htc⟩
    · intro e hmem
      rw [runStream_nonFatal servers outcomes settleOrder invoke model initialMessages
        (Or.inl hse)] at hmem
      rcases List.mem_append.mp hmem with h1 | h1
      · rcases List.mem_append.mp h1 with h2 | h2
        · obtain ⟨mm, hmm⟩ := chatLoop_events_message
            (buildCatalog (initializeAll servers outcomes settleOrder))
            (initializeAll servers outcomes settleOrder) invoke model
            MAX_TOOL_ITERATIONS 0 initialMessages (Event.error e) h2
          cases hmm
        · by_cases hw : MAX_TOOL_ITERATIONS ≤
              (chatLoop (buildCatalog (initializeAll servers outcomes settleOrder))
                (initializeAll servers outcomes settleOrder) invoke model
                MAX_TOOL_ITERATIONS 0 initialMessages).finalCount
          · rw [if_pos hw] at h2
            rcases List.mem_cons.mp h2 with h3 | h3
            · cases h3
            · exact absurd h3 (List.not_mem_nil _)
          · rw [if_neg hw] at h2
            exact absurd h2 (List.not_mem_nil _)
      · rcases List.mem_cons.mp h1 with h2 | h2
        · cases h2
        · exact absurd h2 (List.not_mem_nil _)

/-- Witness for C9: the empty server list with a one-message history —
the first call carries exactly the caller history with `tools` and
`tool_choice` omitted, and no error frame appears. -/
theorem c9_witness :
    (runStream [] [] [] cInvoke cModelStop5 [Msg.user "hi"]).calls.head? =
      some (mkCall [] [Msg.user "hi"]) ∧
    ∀ e, Event.error e ∉ (runStream [] [] [] cInvoke cModelStop5 [Msg.user "hi"]).events := by
  have h := c9_completion_calls [] [] [] cInvoke cModelStop5 [Msg.user "hi"]
  exact ⟨h.2.1 (Or.inl rfl), (h.2.2 rfl).2.2⟩



/-- C1 (amended): for every non-fatal run, at most 5 `Iterating` passes
are performed; a model that always requests a tool call terminates
after exactly 5 passes with the synthetic budget warning as the last
assistant-role message before `done`; a run that breaks out of the loop
before the 5th pass (some earlier pass returned no tool-call requests)
terminates normally, with no synthetic warning appended and `done` as
the terminal frame.  (The original claim's further assertion — that a
run whose 5th pass returns no tool-call requests also terminates
without the warning — is false on the code, which emits the warning
whenever `iterationCount` reaches the budget; see the
counterexample.) -/
theorem c1_iteration_budget (servers : List ServerConfig) (outcomes : List ConnectOutcome)
    (settleOrder : List Nat) (invoke : Nat → String → Json → InvokeOutcome)
    (model : List Msg → AssistantResponse) (initialMessages : List Msg)
    (hnf : servers = [] ∨ initializeAll servers outcomes settleOrder ≠ []) :
    (runStream servers outcomes settleOrder invoke model initialMessages).calls.length
      ≤ 5 ∧
    ((∀ ms, ((model ms).tool_calls).isSome = true) →
       (runStream servers outcomes settleOrder invoke model
         initialMessages).calls.length = 5 ∧
       warningMsg.isAssistant = true ∧
       ∃ pre, (runStream servers outcomes settleOrder invoke model
         initialMessages).events = pre ++ [.message warningMsg, .done]) ∧
    ((chatLoop (buildCatalog (initializeAll servers outcomes settleOrder))
        (initializeAll servers outcomes settleOrder) invoke model
        MAX_TOOL_ITERATIONS 0 initialMessages).finalCount < 5 →
       (runStream servers outcomes settleOrder invoke model initialMessages).events =
         (chatLoop (buildCatalog (initializeAll servers outcomes settleOrder))
           (initializeAll servers outcomes settleOrder) invoke model
           MAX_TOOL_ITERATIONS 0 initialMessages).events ++ [.done]) := by
  rw [runStream_nonFatal servers outcomes settleOrder invoke model initialMessages hnf]
  refine ⟨?_, ?_, ?_⟩
  · exact chatLoop_calls_length_le
      (buildCatalog (initializeAll servers outcomes settleOrder))
      (initializeAll servers outcomes settleOrder) invoke model
      MAX_TOOL_ITERATIONS 0 initialMessages
  · intro hall
    have hlen : (chatLoop (buildCatalog (initializeAll servers outcomes settleOrder))
        (initializeAll servers outcomes settleOrder) invoke model
        MAX_TOOL_ITERATIONS 0 initialMessages).calls.length = 5 :=
      chatLoop_always_some
        (buildCatalog (initializeAll servers outcomes settleOrder))
        (initializeAll servers outcomes settleOrder) invoke model hall
        MAX_TOOL_ITERATIONS 0 initialMessages
    have hfc : (chatLoop (buildCatalog (initializeAll servers outcomes settleOrder))
        (initializeAll servers outcomes settleOrder) invoke model
        MAX_TOOL_ITERATIONS 0 initialMessages).finalCount = 5 := by
      rw [chatLoop_finalCount, hlen]
    refine ⟨hlen, rfl, ?_⟩
    refine ⟨(chatLoop (buildCatalog (initializeAll servers outcomes settleOrder))
        (initializeAll servers outcomes settleOrder) invoke model
        MAX_TOOL_ITERATIONS 0 initialMessages).events, ?_⟩
    rw [hfc]
    rw [if_pos (by decide : MAX_TOOL_ITERATIONS ≤ 5)]
    simp [List.append_assoc]
  · intro hlt
    rw [if_neg (not_le.mpr hlt :
      ¬MAX_TOOL_ITERATIONS ≤
        (chatLoop (buildCatalog (initializeAll servers outcomes settleOrder))
          (initializeAll servers outcomes settleOrder) invoke model
          MAX_TOOL_ITERATIONS 0 initialMessages).finalCount)]
    simp

/-- Witness for C1 (amended): an always-tool-calling model against the
empty server list runs exactly 5 passes and ends with the warning
message followed by `done`. -/
theorem c1_iteration_budget_witness :
    (runStream [] [] [] cInvoke cModelAlways [Msg.user "hi"]).calls.length = 5 ∧
    ∃ pre, (runStream [] [] [] cInvoke cModelAlways [Msg.user "hi"]).events =
      pre ++ [.message warningMsg, .done] := by
  have h := (c1_iteration_budget [] [] [] cInvoke cModelAlways [Msg.user "hi"]
    (Or.inl rfl)).2.1 (fun ms => rfl)
  exact ⟨h.1, h.2.2⟩

/-- C1 counterexample: a concrete run (`cModelStop5`) whose 5th pass
returns no tool-call requests.  The claim asserts such a run
"terminates normally without emitting the warning", but the code emits
the synthetic warning whenever `iterationCount >= MAX_TOOL_ITERATIONS`
after the loop, which holds here: the run makes exactly 5 completion
calls, the 5th response carries no tool calls (position 4 of the call
list feeds a history on which the model answers `none`), yet the
warning message is event number 9 of 11, directly before the terminal
`done`. -/
theorem c1_counterexample :
    (runStream [] [] [] cInvoke cModelStop5 [Msg.user "hi"]).calls.length = 5 ∧
    ((runStream [] [] [] cInvoke cModelStop5 [Msg.user "hi"]).calls[4]?.map
      (fun c => ((cModelStop5 c.messages).tool_calls).isNone)) = some true ∧
    (runStream [] [] [] cInvoke cModelStop5 [Msg.user "hi"]).events[9]? =
      some (.message warningMsg) ∧
    (runStream [] [] [] cInvoke cModelStop5 [Msg.user "hi"]).events[10]? = some .done ∧
    (runStream [] [] [] cInvoke cModelStop5 [Msg.user "hi"]).events.length = 11 := by
  refine ⟨rfl, rfl, rfl, rfl, rfl⟩



/-- C2 (amended): the pool mapping returned by `initializeAllMcpClients`
enumerates its entries in the order in which the successful connection
attempts settled (completion order), because each attempt inserts into
the `Map` when it resolves — not in the order the attempts were issued
(the descriptor list order).  For distinct server names and a
duplicate-free settle order, the pool equals the settle-order
`filterMap` of the per-descriptor results; downstream uses (catalog
building and routing tie-breaks) therefore see completion order.  (The
original claim — enumeration in issue order — is refuted by the
counterexample.) -/
theorem c2_pool_order (configs : List ServerConfig) (outcomes : List ConnectOutcome)
    (settleOrder : List Nat)
    (hnames : (configs.map ServerConfig.name).Nodup)
    (horder : settleOrder.Nodup) :
    initializeAll configs outcomes settleOrder =
      settleOrder.filterMap (succeedsAt configs outcomes) := by
  unfold initializeAll
  have hpair : settleOrder.Pairwise (fun i j => ∀ kv kv2,
      succeedsAt configs outcomes i = some kv →
      succeedsAt configs outcomes j = some kv2 → kv.1 ≠ kv2.1) := by
    apply List.Pairwise.imp ?_ horder
    intro a b hab kv kv2 hkv hkv2
    obtain ⟨cfg1, tools1, l1, hc1, _, _, hkv1⟩ :=
      succeedsAt_some_spec configs outcomes a kv hkv
    obtain ⟨cfg2, tools2, l2, hc2, _, _, hkv2e⟩ :=
      succeedsAt_some_spec configs outcomes b kv2 hkv2
    subst hkv1
    subst hkv2e
    exact config_names_distinct configs hnames a b hab cfg1 cfg2 hc1 hc2
  rw [initFold_filterMap configs outcomes settleOrder [] (fun i _ kv _ => by simp) hpair]
  simp

/-- Witness for C2 (amended) on a concrete two-descriptor batch settling
in reverse order. -/
theorem c2_pool_order_witness :
    initializeAll [cfgA, cfgB]
        [.success [sampleTool "X"], .success [sampleTool "Y"]] [1, 0] =
      [1, 0].filterMap
        (succeedsAt [cfgA, cfgB]
          [.success [sampleTool "X"], .success [sampleTool "Y"]]) :=
  c2_pool_order [cfgA, cfgB]
    [.success [sampleTool "X"], .success [sampleTool "Y"]] [1, 0]
    (by decide) (by decide)

/-- C2 counterexample: descriptors `[A, B]` are issued in that order and
both succeed, but `B`'s attempt settles first; the pool then enumerates
`B` before `A` — completion order, not the descriptor list order the
claim asserts — and the downstream routing tie-break for the shared
tool name `X` accordingly selects `B`. -/
theorem c2_counterexample :
    (initializeAll [cfgA, cfgB]
        [.success [sampleTool "X"], .success [sampleTool "X"]] [1, 0]).map Prod.fst
      = ["B", "A"] ∧
    ["B", "A"] ≠ ["A", "B"] ∧
    (resolve (initializeAll [cfgA, cfgB]
        [.success [sampleTool "X"], .success [sampleTool "X"]] [1, 0]) "X").map
        Prod.fst
      = some "B" := by
  refine ⟨rfl, by decide, rfl⟩



/-- C4 (amended): when the request finishes, every `ActiveConnection`
resident in the pool is closed exactly once by the unconditional
teardown, and every partially-constructed adapter handle from a failed
connect is closed exactly once in the per-descriptor catch block; this
holds on every exit path since the teardown runs in `finally`.  (The
original claim — that every connection that *enters* the pool is closed
exactly once — is refuted by the counterexample: a connection displaced
from the pool by a later same-name success is closed zero times.) -/
theorem c4_close_exactly_once (configs : List ServerConfig)
    (outcomes : List ConnectOutcome) (settleOrder : List Nat)
    (horder : settleOrder.Nodup) :
    (∀ i ∈ poolIds (initializeAll configs outcomes settleOrder),
       (closedAll configs outcomes settleOrder).count i = 1) ∧
    (∀ i ∈ closedDuringInit configs outcomes,
       (closedAll configs outcomes settleOrder).count i = 1) := by
  obtain ⟨hnodup, hsucc⟩ := initializeAll_ids configs outcomes settleOrder horder
  constructor
  · intro i hi
    unfold closedAll
    rw [List.count_append]
    have h1 : (closedDuringInit configs outcomes).count i = 0 :=
      List.count_eq_zero.mpr
        (succeedsAt_not_closedDuringInit configs outcomes i (hsucc i hi))
    have h2 : (poolIds (initializeAll configs outcomes settleOrder)).count i = 1 :=
      List.count_eq_one_of_mem hnodup hi
    rw [h1, h2]
  · intro i hi
    unfold closedAll
    rw [List.count_append]
    have h1 : (closedDuringInit configs outcomes).count i = 1 :=
      List.count_eq_one_of_mem (closedDuringInit_nodup configs outcomes) hi
    have h2 : (poolIds (initializeAll configs outcomes settleOrder)).count i = 0 := by
      apply List.count_eq_zero.mpr
      intro hmem
      exact hsucc i hmem (closedDuringInit_succeedsAt_none configs outcomes i hi)
    rw [h1, h2]

/-- Witness for C4 (amended): descriptor `A` connects (closed once by
teardown), descriptor `B` times out after its `Client` was constructed
(closed once in the catch block). -/
theorem c4_close_exactly_once_witness :
    (closedAll [cfgA, cfgB]
      [.success [sampleTool "X"], .connectFailure "Connection timeout (30s)"]
      [0, 1]).count 0 = 1 ∧
    (closedAll [cfgA, cfgB]
      [.success [sampleTool "X"], .connectFailure "Connection timeout (30s)"]
      [0, 1]).count 1 = 1 := by
  have h := c4_close_exactly_once [cfgA, cfgB]
    [.success [sampleTool "X"], .connectFailure "Connection timeout (30s)"] [0, 1]
    (by decide)
  exact ⟨h.1 0 (by decide), h.2 1 (by decide)⟩

/-- C4 counterexample: two descriptors named `S` both connect; the
connection of descriptor 0 enters the pool first and is displaced by
descriptor 1's same-name success, after which no exit path closes it:
handle 0 entered the pool but appears zero times among the closed
handles. -/
theorem c4_counterexample :
    0 ∈ enteredPool [cfgS0, cfgS1]
      [.success [sampleTool "X"], .success [sampleTool "Y"]] [0, 1] ∧
    (closedAll [cfgS0, cfgS1]
      [.success [sampleTool "X"], .success [sampleTool "Y"]] [0, 1]).count 0 = 0 := by
  exact ⟨by decide, by decide⟩

/-- C10: the pool holds at most one `ActiveConnection` per server name —
with two same-name descriptors both connecting successfully, the
connection settling later overwrites the earlier entry in place
(`Map.set` semantics), the pool ends with a single entry for that name
holding the later handle, and the displaced handle is neither in the
pool nor among the handles closed anywhere (teardown closes only
pool-resident clients). -/
theorem c10_same_name_overwrite (c0 c1 : ServerConfig) (t0 t1 : List ToolInfo)
    (hname : c0.name = c1.name)
    (e0 e1 : List (String × String))
    (h0 : checkEnv c0.env = .ok e0) (h1 : checkEnv c1.env = .ok e1) :
    (initializeAll [c0, c1] [.success t0, .success t1] [0, 1] =
       [(c1.name, ⟨1, t1.map toOpenAITool, t1.map (fun t => t.name)⟩)] ∧
     0 ∉ closedAll [c0, c1] [.success t0, .success t1] [0, 1]) ∧
    (initializeAll [c0, c1] [.success t0, .success t1] [1, 0] =
       [(c0.name, ⟨0, t0.map toOpenAITool, t0.map (fun t => t.name)⟩)] ∧
     1 ∉ closedAll [c0, c1] [.success t0, .success t1] [1, 0]) := by
  have hs0 : succeedsAt [c0, c1] [.success t0, .success t1] 0 =
      some (c0.name, ⟨0, t0.map toOpenAITool, t0.map (fun t => t.name)⟩) := by
    have hred : succeedsAt [c0, c1] [.success t0, .success t1] 0 =
        Option.map (fun info => (c0.name, info)) (attemptResult 0 c0 (.success t0)) := rfl
    rw [hred, attemptResult_success 0 c0 t0 e0 h0]
    rfl
  have hs1 : succeedsAt [c0, c1] [.success t0, .success t1] 1 =
      some (c1.name, ⟨1, t1.map toOpenAITool, t1.map (fun t => t.name)⟩) := by
    have hred : succeedsAt [c0, c1] [.success t0, .success t1] 1 =
        Option.map (fun info => (c1.name, info)) (attemptResult 1 c1 (.success t1)) := rfl
    rw [hred, attemptResult_success 1 c1 t1 e1 h1]
    rfl
  have hfold01 : initializeAll [c0, c1] [.success t0, .success t1] [0, 1] =
      [(c1.name, ⟨1, t1.map toOpenAITool, t1.map (fun t => t.name)⟩)] := by
    unfold initializeAll
    rw [List.foldl_cons, List.foldl_cons, List.foldl_nil]
    simp only [hs0, hs1]
    simp [mapSet, hname]
  have hfold10 : initializeAll [c0, c1] [.success t0, .success t1] [1, 0] =
      [(c0.name, ⟨0, t0.map toOpenAITool, t0.map (fun t => t.name)⟩)] := by
    unfold initializeAll
    rw [List.foldl_cons, List.foldl_cons, List.foldl_nil]
    simp only [hs0, hs1]
    simp [mapSet, hname]
  refine ⟨⟨hfold01, ?_⟩, ⟨hfold10, ?_⟩⟩
  · have hclosed : closedAll [c0, c1] [.success t0, .success t1] [0, 1] = [1] := by
      unfold closedAll
      rw [hfold01]
      rfl
    rw [hclosed]
    decide
  · have hclosed : closedAll [c0, c1] [.success t0, .success t1] [1, 0] = [0] := by
      unfold closedAll
      rw [hfold10]
      rfl
    rw [hclosed]
    decide

/-- Witness for C10 at the concrete same-name descriptors `cfgS0`,
`cfgS1`. -/
theorem c10_witness :
    initializeAll [cfgS0, cfgS1]
        [.success [sampleTool "X"], .success [sampleTool "Y"]] [0, 1] =
      [("S", ⟨1, [toOpenAITool (sampleTool "Y")], ["Y"]⟩)] ∧
    0 ∉ closedAll [cfgS0, cfgS1]
      [.success [sampleTool "X"], .success [sampleTool "Y"]] [0, 1] := by
  have h := (c10_same_name_overwrite cfgS0 cfgS1 [sampleTool "X"] [sampleTool "Y"]
    rfl [] [] rfl rfl).1
  exact ⟨h.1, h.2⟩



/-- C8: the environment passed to the spawned subprocess is the
descriptor's parsed env entries (non-string values coerced to strings
by `String(...)`) spread over a sanitized copy of the ambient process
environment in which undefined-valued entries have been dropped, with
descriptor entries winning on key conflicts: (1) a key of the parsed
env looks up to its descriptor value; (2) a key absent from the parsed
env falls through to the sanitized ambient copy; (3) the sanitized
copy keeps defined ambient entries and drops undefined ones; (4) the
env check turns a JSON object into string-coerced pairs, keeping
string values as they are; (5) a descriptor whose env string is
malformed (or parses to a non-object) fails only that one server —
its attempt contributes nothing and the rest of the batch builds the
same pool. -/
theorem c8_spawn_env (ambient : AmbientEnv) (parsed : List (String × String))
    (k v : String) :
    ((parsed.map Prod.fst).Nodup → (k, v) ∈ parsed →
       envLookup (spawnedEnv ambient parsed) k = some v) ∧
    (k ∉ parsed.map Prod.fst →
       envLookup (spawnedEnv ambient parsed) k = envLookup (cleanProcessEnv ambient) k) ∧
    ((ambient.map Prod.fst).Nodup →
       ((k, some v) ∈ ambient → envLookup (cleanProcessEnv ambient) k = some v) ∧
       ((k, none) ∈ ambient → envLookup (cleanProcessEnv ambient) k = none)) ∧
    (∀ fields, checkEnv (some (.jobj fields)) =
       .ok (fields.map (fun p => (p.1, jsToString p.2))) ∧
       jsToString (.jstr v) = v) ∧
    (∀ (configs : List ServerConfig) (outcomes : List ConnectOutcome)
       (settleOrder : List Nat) (j : Nat) (cfg : ServerConfig) (m : String),
       configs[j]? = some cfg → checkEnv cfg.env = .error m →
       succeedsAt configs outcomes j = none ∧
       initializeAll configs outcomes settleOrder =
         initializeAll configs outcomes (settleOrder.filter (fun i => i != j))) := by
  refine ⟨?_, ?_, ?_, fun fields => ⟨rfl, by simp [jsToString]⟩, ?_⟩
  · intro hnd hmem
    unfold spawnedEnv
    exact spread_lookup_mem parsed (cleanProcessEnv ambient) k v hnd hmem
  · intro hnot
    unfold spawnedEnv
    exact spread_lookup_not_mem parsed (cleanProcessEnv ambient) k hnot
  · intro hnd
    constructor
    · intro hmem
      unfold cleanProcessEnv
      exact cleanFold_lookup_some ambient [] k v hnd hmem
    · intro hmem
      unfold cleanProcessEnv
      exact cleanFold_lookup_none ambient [] k hnd hmem rfl
  · intro configs outcomes settleOrder j cfg m hc he
    have hnone : succeedsAt configs outcomes j = none := by
      cases ho : outcomes[j]? with
      | none =>
        unfold succeedsAt
        rw [hc, ho]
      | some oc =>
        have hred : succeedsAt configs outcomes j =
            Option.map (fun info => (cfg.name, info)) (attemptResult j cfg oc) := by
          unfold succeedsAt
          rw [hc, ho]
        rw [hred, attemptResult_env_error j cfg oc m he]
        rfl
    exact ⟨hnone, initFold_skip configs outcomes j hnone settleOrder []⟩

/-- Witness for C8 on concrete data: descriptor entry `HOME` overrides
the ambient `HOME`; the undefined ambient entry `GONE` is dropped; the
malformed-env descriptor `cfgBadEnv` fails alone while the batch's pool
is unaffected. -/
theorem c8_spawn_env_witness :
    envLookup (spawnedEnv [("HOME", some "/root"), ("GONE", none)]
      [("A", "1"), ("HOME", "/x")]) "HOME" = some "/x" ∧
    envLookup (spawnedEnv [("HOME", some "/root"), ("GONE", none)]
      [("A", "1"), ("HOME", "/x")]) "GONE" = none ∧
    succeedsAt [cfgBadEnv, cfgA] [.success [], .success [sampleTool "X"]] 0 = none ∧
    initializeAll [cfgBadEnv, cfgA] [.success [], .success [sampleTool "X"]] [0, 1] =
      initializeAll [cfgBadEnv, cfgA] [.success [], .success [sampleTool "X"]]
        ([0, 1].filter (fun i => i != 0)) := by
  have h1 := (c8_spawn_env [("HOME", some "/root"), ("GONE", none)]
    [("A", "1"), ("HOME", "/x")] "HOME" "/x").1 (by decide) (by decide)
  have h2a := (c8_spawn_env [("HOME", some "/root"), ("GONE", none)]
    [("A", "1"), ("HOME", "/x")] "GONE" "/x").2.1 (by decide)
  have h2b := ((c8_spawn_env [("HOME", some "/root"), ("GONE", none)]
    [("A", "1"), ("HOME", "/x")] "GONE" "/x").2.2.1 (by decide)).2
    (List.mem_cons_of_mem _ (List.mem_cons_self _ _))
  have h3 := (c8_spawn_env [("HOME", some "/root"), ("GONE", none)]
    [("A", "1"), ("HOME", "/x")] "GONE" "/x").2.2.2.2
    [cfgBadEnv, cfgA] [.success [], .success [sampleTool "X"]] [0, 1] 0 cfgBadEnv
    "Invalid JSON Env: parse failure" rfl rfl
  exact ⟨h1, h2a.trans h2b, h3.1, h3.2⟩


end MCPChat
